import Mathlib

/-!
# Verification of the voxelmorph transform-algebra core against `tf/networks.py`

This file shallowly embeds the parts of `src/voxelmorph/tf/networks.py` that the
claims concern, together with the transform/accumulator primitives those network
builders call.  Primitives that live outside `src/` (`voxelmorph.tf.utils`,
`voxelmorph.tf.layers`, `neurite.layers`, `tf.linalg`) are modelled from the
specification, and each such definition says so in its doc comment.

Conventions of the embedding:
* machine floats become exact rationals `ℚ`; "within floating tolerance" becomes
  exact equality;
* an image-space point is `Fin D → ℚ`; a dense displacement field is a function
  from points to displacement vectors, sampled exactly;
* an affine transform is kept in homogeneous `(D+1)×(D+1)` form (`Mat D`), or in
  the truncated `D×(D+1)` form (`AffMat D`) where the code does;
* Keras layer graphs become function composition; trainable tensors become
  explicit structure fields.
-/

namespace VoxelMorph

/-- A spatial coordinate (or displacement vector) in `D` dimensions. -/
abbrev Vec (D : ℕ) := Fin D → ℚ

/-- A dense displacement (or stationary velocity) field: the vector stored at each
point of the grid, sampled exactly. -/
abbrev DField (D : ℕ) := Vec D → Vec D

/-- A homogeneous `(D+1)×(D+1)` affine matrix. -/
abbrev Mat (D : ℕ) := Matrix (Fin (D + 1)) (Fin (D + 1)) ℚ

/-- A truncated `D×(D+1)` affine matrix (linear block plus translation column). -/
abbrev AffMat (D : ℕ) := Matrix (Fin D) (Fin (D + 1)) ℚ

/-! ## Integrator (spec 4.2) and the `int_steps` wiring of the networks -/

/-- Modelled from the spec (4.2 Integrator; `layers.VecInt` is not under `src/`):
one squaring step of scaling-and-squaring, `d(x) <- d(x) + d(x + d(x))`, the field
self-composed with itself with exact sampling. -/
def selfCompose {D : ℕ} (d : DField D) : DField D :=
  fun x => d x + d (x + d x)

/-- Modelled from the spec (4.2 Integrator; `layers.VecInt` is not under `src/`):
scaling-and-squaring integration of a stationary velocity field: divide by `2^steps`,
then self-compose `steps` times.  At `steps = 0` this divides by `2^0 = 1` and
performs no squaring. -/
def integrate {D : ℕ} (svf : DField D) (steps : ℕ) : DField D :=
  selfCompose^[steps] (fun x => ((2 : ℚ) ^ steps)⁻¹ • svf x)

/-- From `networks.py` L177-L208 (`VxmDense.__init__`): the flow pipeline after the
SVF has been cached.  The two `RescaleTransform` layers are abstracted as functions
`resizeToInt` / `resizeBack`, and the `np.array_equal` shape test guarding the first
rescale as the Boolean `sizesDiffer`.  Both rescales and the `VecInt` layer are
guarded by `int_steps > 0` exactly as in the source. -/
def vxmDensePosFlow {D : ℕ} (resizeToInt resizeBack : DField D → DField D)
    (sizesDiffer : Bool) (int_steps : ℕ) (int_resolution : ℚ) (svf : DField D) :
    DField D :=
  let flow := if 0 < int_steps ∧ 1 < int_resolution ∧ sizesDiffer = true
    then resizeToInt svf else svf
  let preint_flow := flow
  let pos_flow := if 0 < int_steps then integrate preint_flow int_steps else preint_flow
  if 0 < int_steps ∧ 1 < int_resolution then resizeBack pos_flow else pos_flow

/-- From `networks.py` L529-L536 (`InstanceDense.__init__`): `pos_flow` starts as the
local-parameter `preint_flow`; only when `int_steps > 0` is `VecInt` applied, and
only then (and when `int_resolution > 1`) is the result rescaled back. -/
def instanceDensePosFlow {D : ℕ} (resizeBack : DField D → DField D)
    (int_steps : ℕ) (int_resolution : ℚ) (preint_flow : DField D) : DField D :=
  if 0 < int_steps then
    (if 1 < int_resolution then resizeBack (integrate preint_flow int_steps)
     else integrate preint_flow int_steps)
  else preint_flow

/-- Pointwise negation of a field (`ne.layers.Negate`). -/
def negField {D : ℕ} (f : DField D) : DField D := fun x => -(f x)

/-- From `networks.py` L1667-L1671 (`HyperVxmJoint.__init__`): the symmetric SVF
pair.  The deformable network is the abstract function `model_def` from a pair of
(moved) images to a field; the forward SVF is `KL.average` of the negated reverse
prediction and the forward prediction, and the reverse SVF is its exact negation. -/
def jointSvfPair {D : ℕ} {Img : Type} (model_def : Img → Img → DField D)
    (mov_1 mov_2 : Img) : DField D × DField D :=
  let svf_fwd := model_def mov_1 mov_2
  let svf_rev := model_def mov_2 mov_1
  let svf_1 := fun x => (1 / 2 : ℚ) • (negField svf_rev x + svf_fwd x)
  (svf_1, negField svf_1)

/-- From `networks.py` L1672-L1676 (`HyperVxmJoint.__init__`): `def_i` is the
integrated `svf_i`, except that when `int_steps == 0` the integration output is
replaced by the SVF itself. -/
def jointDefPair {D : ℕ} (int_steps : ℕ) (svf_1 svf_2 : DField D) :
    DField D × DField D :=
  if int_steps = 0 then (svf_1, svf_2)
  else (integrate svf_1 int_steps, integrate svf_2 int_steps)

/-! ## Mean accumulator (spec 4.7) -/

/-- State of the running-mean accumulator (`ne.layers.MeanStream`): a sample count
and the current mean field (a vector of `m` rational components). -/
structure MeanState (m : ℕ) where
  count : ℕ
  mean : Fin m → ℚ

/-- Modelled from the spec (4.7 Mean Accumulator; `ne.layers.MeanStream`, invoked at
`networks.py` L805 and L971, is not under `src/`): with `c' = min (count + batch_size)
cap`, the mean moves toward the batch mean with weight `batch_size / c'`, and the
count is capped at `cap`. -/
def meanStreamUpdate {m : ℕ} (st : MeanState m) (batch_mean : Fin m → ℚ)
    (batch_size cap : ℕ) : MeanState m :=
  let c' := min (st.count + batch_size) cap
  { count := c'
    mean := fun i =>
      st.mean i + ((batch_size : ℚ) / (c' : ℚ)) * (batch_mean i - st.mean i) }

/-! ## Local parameter field (spec 4.8) and `InstanceDense.set_flow` -/

/-- A local-parameter layer (`ne.layers.LocalParamWithInput`): stored weights and the
fixed multiplier chosen at construction. -/
structure LocalParamLayer (m : ℕ) where
  weights : Fin m → ℚ
  mult : ℚ

/-- Modelled from the spec (4.8 Local Parameter Field; `ne.layers.LocalParamWithInput`
is not under `src/`): reading the layer returns `weights × multiplier`. -/
def localParamRead {m : ℕ} (L : LocalParamLayer m) : Fin m → ℚ :=
  fun i => L.mult * L.weights i

/-- From `networks.py` L553-L559 (`InstanceDense.set_flow`): the incoming warp is
divided by the multiplier before being stored as the layer weights. -/
def set_flow {m : ℕ} (L : LocalParamLayer m) (warp : Fin m → ℚ) : LocalParamLayer m :=
  { L with weights := fun i => warp i / L.mult }

/-! ## The `reg_field` output selector of `VxmDense` (spec section 7) -/

/-- A Python string, embedded as its list of characters (kernel-reducible, unlike
`String` functions). -/
abbrev PyStr := List Char

/-- Python `str.lower()` on the ASCII option names used here: lower-case every
character. -/
def pyLower (s : PyStr) : PyStr := s.map Char.toLower

/-- From `networks.py` L229-L246 (`VxmDense.__init__`, `use_probs=False` branch): the
input is lower-cased, then dispatched over the four valid option names in source
order; any other value raises `ValueError` with a message naming the offending
(lower-cased) option.  The cached tensors `svf`, `preint_flow`, `postint_flow`,
`pos_flow` are abstract values of type `α`; the chosen one is the tensor appended as
the regularization output. -/
def regFieldSelect {α : Type} (reg_field : PyStr)
    (svf preint_flow postint_flow pos_flow : α) : Except PyStr α :=
  let r := pyLower reg_field
  if r = String.toList "svf" then Except.ok svf
  else if r = String.toList "preintegrated" then Except.ok preint_flow
  else if r = String.toList "postintegrated" then Except.ok postint_flow
  else if r = String.toList "warp" then Except.ok pos_flow
  else Except.error (String.toList "Unknown option \"" ++ r ++ String.toList "\" for reg_field.")

/-! ## Compact affine parameter vector (spec 4.4) and the rigid truncation -/

/-- The compact affine parameter blocks for dimension `D`: `D` translations,
`D(D−1)/2` rotations, `D` scales, `D(D−1)/2` shears. -/
structure AffParams (D : ℕ) where
  translation : Fin D → ℚ
  rotation : Fin (D * (D - 1) / 2) → ℚ
  scale : Fin D → ℚ
  shear : Fin (D * (D - 1) / 2) → ℚ

/-- Modelled from the spec (4.4 Composer/Inverter; `utils.affine_matrix_to_params` is
not under `src/`): the compact parameter vector is ordered (translation, rotation,
scale, shear). -/
def paramsFlatten {D : ℕ} (p : AffParams D) : List ℚ :=
  List.ofFn p.translation ++ List.ofFn p.rotation ++ List.ofFn p.scale ++ List.ofFn p.shear

/-- Modelled from the spec (4.4 Composer/Inverter; `layers.ParamsToAffineMatrix` is
not under `src/`): rebuilding parameters from a possibly truncated vector fills the
missing trailing entries with their neutral values — translation 0, rotation 0,
scale 1, shear 0. -/
def paramsUnflatten (D : ℕ) (v : List ℚ) : AffParams D where
  translation := fun i => v.getD i 0
  rotation := fun i => v.getD (D + i) 0
  scale := fun i => v.getD (D + D * (D - 1) / 2 + i) 1
  shear := fun i => v.getD (D + D * (D - 1) / 2 + D + i) 0

/-- From `networks.py` L1415-L1419 (`VxmAffineFeatureDetector.__init__`, `rigid=True`):
the averaged matrix is converted to parameters, sliced to its first
`num_dim * (num_dim + 1) // 2` entries, and reconstructed. -/
def rigidParamTrunc {D : ℕ} (p : AffParams D) : AffParams D :=
  paramsUnflatten D ((paramsFlatten p).take (D * (D + 1) / 2))

/-! ## Affine matrix algebra (spec 4.4-4.6) -/

/-- Modelled from the spec (4.4 Composer/Inverter: `invert_affine` is the exact
homogeneous-matrix inverse; `layers.InvertAffine` is not under `src/`): the inverse
as `det⁻¹ · adjugate`, kept computable. -/
def matInv {n : ℕ} (A : Matrix (Fin n) (Fin n) ℚ) : Matrix (Fin n) (Fin n) ℚ :=
  (A.det)⁻¹ • A.adjugate

/-- Modelled from the spec (4.6 Mid-space Solver; `utils.make_square_affine` is not
under `src/`): promote a `D×(D+1)` affine matrix to square homogeneous form by
appending the row `(0, ..., 0, 1)`. -/
def make_square_affine {D : ℕ} (T : AffMat D) : Mat D :=
  Matrix.of fun i j =>
    if h : (i : ℕ) < D then T ⟨i, h⟩ j else if j = Fin.last D then 1 else 0

/-- Truncate a square homogeneous matrix back to `D×(D+1)` affine form (drop the last
row). -/
def truncAffine {D : ℕ} (M : Mat D) : AffMat D :=
  Matrix.of fun i j => M (Fin.castSucc i) j

/-- Composition of two truncated affines (first argument applied second): promote to
homogeneous form, multiply, truncate. -/
def composeAffMat {D : ℕ} (H K : AffMat D) : AffMat D :=
  truncAffine (make_square_affine H * make_square_affine K)

/-- The failure signal the spec requires of the mid-space solver. -/
inductive MidSpaceFailure where
  | NoRealSquareRoot
deriving DecidableEq

/-- From `networks.py` L1423-L1428 (`VxmAffineFeatureDetector.__init__`) and
identically L1602-L1607 (`HyperVxmJoint.__init__`): the mid-space step applies
`utils.make_square_affine` and then `tf.linalg.sqrtm`, unconditionally.  The external
TensorFlow primitive `tf.linalg.sqrtm` is the function parameter `sqrtm` (the spec,
sections 7 and 9, records that its behavior on inputs without a real root is
unspecified).  The `Except` codomain makes the claimed failure channel expressible:
the source performs no check and raises nothing, so the embedding is `Except.ok` on
every path. -/
def midSpaceStep {D : ℕ} (sqrtm : Mat D → Mat D) (aff : AffMat D) :
    Except MidSpaceFailure (Mat D) :=
  Except.ok (sqrtm (make_square_affine aff))

/-! ## Affine fitter (spec 4.5) and the detector's symmetrized estimate -/

/-- Homogeneous coordinates of a point list: append a constant-one column. -/
def homogPoints {N D : ℕ} (P : Matrix (Fin N) (Fin D) ℚ) : Matrix (Fin N) (Fin (D + 1)) ℚ :=
  Matrix.of fun n j => if h : (j : ℕ) < D then P n ⟨j, h⟩ else 1

/-- Modelled from the spec (4.5 Affine Fitter; `utils.fit_affine` is not under
`src/`): weighted least squares via the normal equations on the homogeneous
formulation, `H = Yᵀ W X (Xᵀ W X)⁻¹` with `X`/`Y` the homogeneous source/target
points and `W = diag(w)` — the minimizer of `Σ wᵢ ‖M aᵢ + t − bᵢ‖²` whenever
`Xᵀ W X` is invertible. -/
def fit_affine {N D : ℕ} (a b : Matrix (Fin N) (Fin D) ℚ) (w : Fin N → ℚ) : Mat D :=
  (homogPoints b).transpose * Matrix.diagonal w * homogPoints a
    * matInv ((homogPoints a).transpose * Matrix.diagonal w * homogPoints a)

/-- From `networks.py` L1405-L1413 (`VxmAffineFeatureDetector.__init__`): fit the
image-1 barycenters to the image-2 barycenters, independently fit the reverse
direction with the same shared channel weights, invert the reverse fit
(`layers.InvertAffine`), and average the two estimates elementwise (`KL.average`). -/
def detectorAffine {N D : ℕ} (cen_1 cen_2 : Matrix (Fin N) (Fin D) ℚ)
    (w : Fin N → ℚ) : Mat D :=
  (1 / 2 : ℚ) • (matInv (fit_affine cen_2 cen_1 w) + fit_affine cen_1 cen_2 w)

/-! ## Transforms, composition and centering (spec 3, 4.4) -/

/-- A transform: an affine in homogeneous matrix form, or a dense field. -/
inductive Xform (D : ℕ) where
  | affine (M : Mat D)
  | dense (u : DField D)

/-- Apply a homogeneous affine matrix to a point (reads only the first `D` rows;
matrices in these pipelines carry last row `(0, ..., 0, 1)`). -/
def affApply {D : ℕ} (M : Mat D) (x : Vec D) : Vec D :=
  fun i => (∑ j : Fin D, M (Fin.castSucc i) (Fin.castSucc j) * x j)
    + M (Fin.castSucc i) (Fin.last D)

/-- Modelled from the spec (4.4 `affine_to_dense`; `layers.AffineToDenseShift` is not
under `src/`): materialize an affine as a displacement field over a grid with center
`c`; with `shift_center` the matrix acts in center-shifted coordinates, without it
the matrix acts on raw zero-based indices. -/
def affineToDense {D : ℕ} (M : Mat D) (c : Vec D) : Bool → DField D
  | true => fun x => (affApply M (x - c) + c) - x
  | false => fun x => affApply M x - x

/-- Dense-dense composition (second-applied `v` after first-applied `u`): each point
accumulates the second displacement sampled at its already-displaced location. -/
def denseComp {D : ℕ} (v u : DField D) : DField D :=
  fun x => u x + v (x + u x)

/-- Modelled from the spec (4.4 Composer; `layers.ComposeTransform` is not under
`src/`): compose two transforms, the first argument applied second (matrix order, as
in the source where `ComposeTransform((T1, T2))` applies `T2` first).  Affine-affine
composition stays in matrix form; an affine meeting a dense is materialized over the
caller's grid honoring `shift_center`; dense-dense composition never consults
`shift_center`. -/
def composeXf {D : ℕ} (sc : Bool) (c : Vec D) : Xform D → Xform D → Xform D
  | .affine M, .affine N => .affine (M * N)
  | .dense v, .dense u => .dense (denseComp v u)
  | .affine M, .dense u => .dense (denseComp (affineToDense M c sc) u)
  | .dense v, .affine N => .dense (denseComp v (affineToDense N c sc))

/-- N-ary composition in source order (first listed applied last). -/
def composeXfList {D : ℕ} (sc : Bool) (c : Vec D) : List (Xform D) → Xform D
  | [] => .affine 1
  | [t] => t
  | t :: ts => composeXf sc c t (composeXfList sc c ts)

/-- From `networks.py` L1334-L1337 (`VxmAffineFeatureDetector.__init__`, `cen`): the
identity with last column `−(shape − 1)/2`. -/
def cenMat {D : ℕ} (shape : Vec D) : Mat D :=
  Matrix.of fun i j =>
    if i = j then 1
    else if h : (i : ℕ) < D ∧ j = Fin.last D then -(1 / 2 : ℚ) * (shape ⟨i, h.1⟩ - 1)
    else 0

/-- From `networks.py` L1339-L1342 (`un_cen`): the identity with last column
`+(shape − 1)/2`. -/
def unCenMat {D : ℕ} (shape : Vec D) : Mat D :=
  Matrix.of fun i j =>
    if i = j then 1
    else if h : (i : ℕ) < D ∧ j = Fin.last D then (1 / 2 : ℚ) * (shape ⟨i, h.1⟩ - 1)
    else 0

/-- From `networks.py` L1344-L1346 (`scale`): the diagonal scaling matrix
`diag(f, ..., f, 1)`. -/
def scaleMat (D : ℕ) (f : ℚ) : Mat D :=
  Matrix.of fun i j => if i = j then (if (i : ℕ) < D then f else 1) else 0

/-- From `networks.py` L1430-L1433: the endpoint of the detector pipeline — the
centered-frame affine estimate is wrapped as `un_cen ∘ A ∘ cen` by one
`ComposeTransform(shift_center=False)` call. -/
def detectorIndexSpace {D : ℕ} (shape : Vec D) (c : Vec D) (A : Mat D) : Xform D :=
  composeXfList false c
    [.affine (unCenMat shape), .affine A, .affine (cenMat shape)]

/-- From `networks.py` L1688-L1700 (`HyperVxmJoint.__init__`, the
`return_trans_to_half_res=False` endpoint): `tot_1` composes the affine with the
deformable warp under an explicit `shift_center=False`; the final composition with
the materialized `down` transform (L1697, `shift_center=False`) omits the flag at
L1699, so the library default enters as the parameter `b`. -/
def jointTotFullRes {D : ℕ} (b : Bool) (c : Vec D) (aff_1 : Mat D)
    (def_1 : DField D) : Xform D :=
  let tot_1 := composeXf false c (.affine aff_1) (.dense def_1)
  let down := Xform.dense (affineToDense (scaleMat D (1 / 2)) c false)
  composeXf b c tot_1 down

end VoxelMorph

namespace VoxelMorph

/-! ## Claim theorems: C2, C10, C8, C9 -/

/-- C2. Integration passthrough at zero steps: `integrate svf 0 = svf` exactly; with
`int_steps = 0`, `VxmDense` and `InstanceDense` produce the unmodified SVF as their
flow (no `VecInt`, no rescaling), and `HyperVxmJoint` outputs `def_1 = svf_1` and
`def_2 = svf_2`. -/
theorem integrate_zero_passthrough {D : ℕ} (svf svf_1 svf_2 : DField D)
    (resizeToInt resizeBack : DField D → DField D) (sizesDiffer : Bool)
    (int_resolution : ℚ) :
    integrate svf 0 = svf
    ∧ vxmDensePosFlow resizeToInt resizeBack sizesDiffer 0 int_resolution svf = svf
    ∧ instanceDensePosFlow resizeBack 0 int_resolution svf = svf
    ∧ jointDefPair 0 svf_1 svf_2 = (svf_1, svf_2) := by
  have h0 : integrate svf 0 = svf := by
    funext x
    simp [integrate]
  refine ⟨h0, ?_, ?_, ?_⟩
  · simp [vxmDensePosFlow]
  · simp [instanceDensePosFlow]
  · simp [jointDefPair]

/-- C10. Antisymmetry of the `HyperVxmJoint` stationary velocity fields: the forward
SVF is the average of the forward prediction and the negated reverse prediction, the
reverse SVF is the exact negation of the forward SVF, and their pointwise sum is
identically zero before integration. -/
theorem joint_svf_antisymmetry {D : ℕ} {Img : Type} (model_def : Img → Img → DField D)
    (mov_1 mov_2 : Img) :
    (jointSvfPair model_def mov_1 mov_2).1
      = (fun x => (1 / 2 : ℚ) • (model_def mov_1 mov_2 x + negField (model_def mov_2 mov_1) x))
    ∧ (jointSvfPair model_def mov_1 mov_2).2
      = negField (jointSvfPair model_def mov_1 mov_2).1
    ∧ ∀ x, (jointSvfPair model_def mov_1 mov_2).1 x
        + (jointSvfPair model_def mov_1 mov_2).2 x = 0 := by
  refine ⟨?_, rfl, ?_⟩
  · funext x
    simp [jointSvfPair, negField, add_comm]
  · intro x
    funext i
    simp [jointSvfPair, negField]
    ring

/-- C8, corrected. Mean accumulator update rule: the new count is
`min (count + batch_size) cap` and the new mean is
`mean + (batch_mean − mean) · (batch_size / min (count + batch_size) cap)`; once the
count has reached the cap the weight is the fixed `batch_size / cap`; and feeding a
constant `v` makes the mean exactly `v` after the first update provided the batch
size is positive and does not exceed the cap (and the mean then stays at `v`). -/
theorem mean_stream_update_rule {m : ℕ} (st : MeanState m) (b : Fin m → ℚ)
    (s cap : ℕ) (v : ℚ) :
    (meanStreamUpdate st b s cap).count = min (st.count + s) cap
    ∧ (meanStreamUpdate st b s cap).mean
      = (fun i => st.mean i + ((s : ℚ) / ((min (st.count + s) cap : ℕ) : ℚ)) * (b i - st.mean i))
    ∧ (cap ≤ st.count → (meanStreamUpdate st b s cap).mean
      = fun i => st.mean i + ((s : ℚ) / (cap : ℚ)) * (b i - st.mean i))
    ∧ (st.count = 0 → 0 < s → s ≤ cap →
      (meanStreamUpdate st (fun _ => v) s cap).mean = fun _ => v)
    ∧ (meanStreamUpdate (⟨st.count, fun _ => v⟩ : MeanState m) (fun _ => v) s cap).mean
      = fun _ => v := by
  refine ⟨rfl, rfl, ?_, ?_, ?_⟩
  · intro hc
    have hmin : min (st.count + s) cap = cap := by omega
    funext i
    simp only [meanStreamUpdate, hmin]
  · intro h0 hs hcap
    have hmin : min (st.count + s) cap = s := by omega
    have hs' : ((s : ℕ) : ℚ) ≠ 0 := by
      exact_mod_cast Nat.pos_iff_ne_zero.mp hs
    funext i
    simp only [meanStreamUpdate, hmin]
    field_simp
  · funext i
    simp [meanStreamUpdate]

/-- C8 witness: a first update from the fresh state with batch size `2 ≤ cap = 100`
and constant batch mean `5` sets the mean to exactly `5`. -/
theorem mean_stream_update_rule_witness :
    (meanStreamUpdate (⟨0, fun _ => 0⟩ : MeanState 1) (fun _ => 5) 2 100).mean
      = fun _ => 5 :=
  (mean_stream_update_rule ⟨0, fun _ => 0⟩ (fun _ => 5) 2 100 5).2.2.2.1 rfl
    (by norm_num) (by norm_num)

/-- C8 counterexample: with `cap = 1` and batch size `2 > cap`, the very first update
with constant batch mean `1` sets the mean to `2`, not to the fed constant `1` — the
claim's unconditional "mean == v after the first update" fails when the batch size
exceeds the cap. -/
theorem mean_stream_update_rule_counterexample :
    (meanStreamUpdate (⟨0, fun _ => 0⟩ : MeanState 1) (fun _ => 1) 2 1).mean = (fun _ => 2)
    ∧ ¬ ((2 : ℚ) = 1) := by
  constructor
  · funext i
    norm_num [meanStreamUpdate]
  · norm_num

/-- C9, corrected. Local parameter field set/read consistency: for every nonzero
multiplier, `set_flow` stores `warp / mult`, the exact inverse of the `× mult`
applied on read, so reading back returns the warp unchanged. -/
theorem set_flow_roundtrip {m : ℕ} (L : LocalParamLayer m) (warp : Fin m → ℚ)
    (h : L.mult ≠ 0) :
    localParamRead (set_flow L warp) = warp := by
  funext i
  simp only [localParamRead, set_flow]
  rw [mul_comm, div_mul_cancel₀ _ h]

/-- C9 witness: with the default multiplier `1000` (nonzero), setting the constant
warp `7` and reading back returns exactly `7`. -/
theorem set_flow_roundtrip_witness :
    (1000 : ℚ) ≠ 0
    ∧ localParamRead (set_flow (⟨fun _ => 0, 1000⟩ : LocalParamLayer 1) (fun _ => 7))
      = (fun _ => 7) :=
  ⟨by norm_num, set_flow_roundtrip _ _ (by norm_num)⟩

/-- C9 counterexample: with multiplier `0` the stored weights read back as the zero
field, not the warp `1` that was set — the claim's "independently of the multiplier
value" fails at `mult = 0` (in the floating-point source this is a division by zero
followed by `inf × 0`, likewise not the identity). -/
theorem set_flow_roundtrip_counterexample :
    localParamRead (set_flow (⟨fun _ => 0, 0⟩ : LocalParamLayer 1) (fun _ => 1))
      = (fun _ => 0)
    ∧ ¬ ((0 : ℚ) = 1) := by
  constructor
  · funext i
    simp [localParamRead, set_flow]
  · norm_num

/-- The computable inverse agrees with Mathlib's matrix inverse. -/
lemma matInv_eq_inv {n : ℕ} (A : Matrix (Fin n) (Fin n) ℚ) : matInv A = A⁻¹ := by
  rw [Matrix.inv_def, matInv, Ring.inverse_eq_inv']

/-- For a nonsingular matrix, `matInv` is the exact left inverse (the spec's
`invert_affine`; it would report `SingularMatrix` on zero determinant). -/
lemma matInv_mul_self {n : ℕ} (A : Matrix (Fin n) (Fin n) ℚ) (h : A.det ≠ 0) :
    matInv A * A = 1 := by
  rw [matInv_eq_inv]
  exact Matrix.nonsing_inv_mul A (isUnit_iff_ne_zero.2 h)

/-- For a nonsingular matrix, `matInv` is the exact right inverse. -/
lemma mul_matInv_self {n : ℕ} (A : Matrix (Fin n) (Fin n) ℚ) (h : A.det ≠ 0) :
    A * matInv A = 1 := by
  rw [matInv_eq_inv]
  exact Matrix.mul_nonsing_inv A (isUnit_iff_ne_zero.2 h)

/-- Homogeneous form of the example barycenter set `a` used to separate the two fit
directions. -/
lemma homog_ptsA : homogPoints !![(1 : ℚ), 0; -1, 0; 0, 1; 0, -1]
    = !![(1 : ℚ), 0, 1; -1, 0, 1; 0, 1, 1; 0, -1, 1] := by
  ext i j
  fin_cases i <;> fin_cases j <;>
    simp [homogPoints, Matrix.vecHead, Matrix.vecTail]

/-- Homogeneous form of the example barycenter set `b`. -/
lemma homog_ptsB : homogPoints !![(2 : ℚ), 0; -1, 0; 0, 1; 0, -1]
    = !![(2 : ℚ), 0, 1; -1, 0, 1; 0, 1, 1; 0, -1, 1] := by
  ext i j
  fin_cases i <;> fin_cases j <;>
    simp [homogPoints, Matrix.vecHead, Matrix.vecTail]

/-- Unit weights give the identity weight matrix. -/
lemma diagonal_ones : Matrix.diagonal (fun _ : Fin 4 => (1 : ℚ)) = 1 :=
  Matrix.diagonal_one

/-- Normal matrix of the example set `a`. -/
lemma gram_ptsA : (!![(1 : ℚ), 0, 1; -1, 0, 1; 0, 1, 1; 0, -1, 1]).transpose
    * !![(1 : ℚ), 0, 1; -1, 0, 1; 0, 1, 1; 0, -1, 1] = !![(2 : ℚ), 0, 0; 0, 2, 0; 0, 0, 4] := by
  ext i j
  fin_cases i <;> fin_cases j <;>
    simp [Matrix.mul_apply, Matrix.transpose_apply, Fin.sum_univ_four,
      Matrix.vecHead, Matrix.vecTail] <;> norm_num

/-- Normal matrix of the example set `b`. -/
lemma gram_ptsB : (!![(2 : ℚ), 0, 1; -1, 0, 1; 0, 1, 1; 0, -1, 1]).transpose
    * !![(2 : ℚ), 0, 1; -1, 0, 1; 0, 1, 1; 0, -1, 1] = !![(5 : ℚ), 0, 1; 0, 2, 0; 1, 0, 4] := by
  ext i j
  fin_cases i <;> fin_cases j <;>
    simp [Matrix.mul_apply, Matrix.transpose_apply, Fin.sum_univ_four,
      Matrix.vecHead, Matrix.vecTail] <;> norm_num

/-- Inverse of the normal matrix of set `a`. -/
lemma inv_gram_ptsA : matInv !![(2 : ℚ), 0, 0; 0, 2, 0; 0, 0, 4]
    = !![(1 / 2 : ℚ), 0, 0; 0, 1 / 2, 0; 0, 0, 1 / 4] := by
  ext i j
  fin_cases i <;> fin_cases j <;>
    simp [matInv, Matrix.det_fin_three, Matrix.adjugate_fin_three,
      Matrix.vecHead, Matrix.vecTail] <;> norm_num

/-- Inverse of the normal matrix of set `b`. -/
lemma inv_gram_ptsB : matInv !![(5 : ℚ), 0, 1; 0, 2, 0; 1, 0, 4]
    = !![(4 / 19 : ℚ), 0, -1 / 19; 0, 1 / 2, 0; -1 / 19, 0, 5 / 19] := by
  ext i j
  fin_cases i <;> fin_cases j <;>
    simp [matInv, Matrix.det_fin_three, Matrix.adjugate_fin_three,
      Matrix.vecHead, Matrix.vecTail] <;> norm_num

/-- Cross moment matrix for the forward fit of the example. -/
lemma cross_ptsBA : (!![(2 : ℚ), 0, 1; -1, 0, 1; 0, 1, 1; 0, -1, 1]).transpose
    * !![(1 : ℚ), 0, 1; -1, 0, 1; 0, 1, 1; 0, -1, 1] = !![(3 : ℚ), 0, 1; 0, 2, 0; 0, 0, 4] := by
  ext i j
  fin_cases i <;> fin_cases j <;>
    simp [Matrix.mul_apply, Matrix.transpose_apply, Fin.sum_univ_four,
      Matrix.vecHead, Matrix.vecTail] <;> norm_num

/-- Cross moment matrix for the reverse fit of the example. -/
lemma cross_ptsAB : (!![(1 : ℚ), 0, 1; -1, 0, 1; 0, 1, 1; 0, -1, 1]).transpose
    * !![(2 : ℚ), 0, 1; -1, 0, 1; 0, 1, 1; 0, -1, 1] = !![(3 : ℚ), 0, 0; 0, 2, 0; 1, 0, 4] := by
  ext i j
  fin_cases i <;> fin_cases j <;>
    simp [Matrix.mul_apply, Matrix.transpose_apply, Fin.sum_univ_four,
      Matrix.vecHead, Matrix.vecTail] <;> norm_num

/-- The forward least-squares fit of the example point sets. -/
lemma fit_example_forward : fit_affine !![(1 : ℚ), 0; -1, 0; 0, 1; 0, -1]
    !![(2 : ℚ), 0; -1, 0; 0, 1; 0, -1] (fun _ => 1)
    = !![(3 / 2 : ℚ), 0, 1 / 4; 0, 1, 0; 0, 0, 1] := by
  unfold fit_affine
  rw [homog_ptsA, homog_ptsB, diagonal_ones, Matrix.mul_one, Matrix.mul_one,
    gram_ptsA, inv_gram_ptsA, cross_ptsBA, Matrix.mul_fin_three]
  norm_num

/-- The independently computed reverse least-squares fit of the example point sets. -/
lemma fit_example_reverse : fit_affine !![(2 : ℚ), 0; -1, 0; 0, 1; 0, -1]
    !![(1 : ℚ), 0; -1, 0; 0, 1; 0, -1] (fun _ => 1)
    = !![(12 / 19 : ℚ), 0, -3 / 19; 0, 1, 0; 0, 0, 1] := by
  unfold fit_affine
  rw [homog_ptsA, homog_ptsB, diagonal_ones, Matrix.mul_one, Matrix.mul_one,
    gram_ptsB, inv_gram_ptsB, cross_ptsAB, Matrix.mul_fin_three]
  norm_num

/-- Inverse of the example's forward fit — its top-left entry is `2/3 ≠ 12/19`. -/
lemma inv_fit_example_forward : matInv !![(3 / 2 : ℚ), 0, 1 / 4; 0, 1, 0; 0, 0, 1]
    = !![(2 / 3 : ℚ), 0, -1 / 6; 0, 1, 0; 0, 0, 1] := by
  ext i j
  fin_cases i <;> fin_cases j <;>
    norm_num [matInv, Matrix.det_fin_three, Matrix.adjugate_fin_three,
      Matrix.vecHead, Matrix.vecTail]

/-- C1. Symmetrized affine fitting: the detector's affine estimate is the elementwise
average of the direct fit from image-1 barycenters to image-2 barycenters and the
matrix inverse of the independently computed reverse fit (same shared weights); and
the reverse fit is genuinely independent — on concrete barycenter sets it differs
from the inverse of the forward fit, so it cannot be obtained by inversion. -/
theorem symmetrized_affine_fit {N D : ℕ} (cen_1 cen_2 : Matrix (Fin N) (Fin D) ℚ)
    (w : Fin N → ℚ) :
    detectorAffine cen_1 cen_2 w
      = (1 / 2 : ℚ) • (fit_affine cen_1 cen_2 w + matInv (fit_affine cen_2 cen_1 w))
    ∧ ¬ (fit_affine !![(2 : ℚ), 0; -1, 0; 0, 1; 0, -1] !![(1 : ℚ), 0; -1, 0; 0, 1; 0, -1]
          (fun _ => 1)
        = matInv (fit_affine !![(1 : ℚ), 0; -1, 0; 0, 1; 0, -1]
          !![(2 : ℚ), 0; -1, 0; 0, 1; 0, -1] (fun _ => 1))) := by
  constructor
  · unfold detectorAffine
    rw [add_comm (matInv (fit_affine cen_2 cen_1 w)) (fit_affine cen_1 cen_2 w)]
  · rw [fit_example_reverse, fit_example_forward, inv_fit_example_forward]
    intro hEq
    have h00 := congrFun (congrFun hEq 0) 0
    norm_num [Matrix.cons_val_zero] at h00

/-- Truncating the promoted square form recovers the affine matrix. -/
lemma truncAffine_make_square {D : ℕ} (T : AffMat D) :
    truncAffine (make_square_affine T) = T := by
  ext i j
  simp [truncAffine, make_square_affine, i.isLt]

/-- Promoting the truncation restores a square matrix whose last row is
`(0, ..., 0, 1)`. -/
lemma make_square_truncAffine {D : ℕ} (M : Mat D)
    (hrow : ∀ j, M (Fin.last D) j = if j = Fin.last D then (1 : ℚ) else 0) :
    make_square_affine (truncAffine M) = M := by
  ext i j
  by_cases h : (i : ℕ) < D
  · have hc : Fin.castSucc (⟨(i : ℕ), h⟩ : Fin D) = i := Fin.ext rfl
    simp only [make_square_affine, truncAffine, Matrix.of_apply, dif_pos h, hc]
  · have hi : i = Fin.last D := Fin.ext (by have := i.isLt; simp; omega)
    subst hi
    simp only [make_square_affine, Matrix.of_apply, dif_neg h, hrow j]

/-- C3. Mid-space half-transform property: if `S` is a real principal square root of
the promoted homogeneous form of `T` (so `S * S = make_square_affine T`, and `S`
carries the affine last row `(0, ..., 0, 1)`, as the principal root of an affine
matrix does), then composing the truncated half-transform with itself recovers `T`
exactly. -/
theorem mid_space_half_transform {D : ℕ} (T : AffMat D) (S : Mat D)
    (hsq : S * S = make_square_affine T)
    (hrow : ∀ j, S (Fin.last D) j = if j = Fin.last D then (1 : ℚ) else 0) :
    composeAffMat (truncAffine S) (truncAffine S) = T := by
  unfold composeAffMat
  rw [make_square_truncAffine S hrow, hsq, truncAffine_make_square]

/-- C3 witness: in 2-D, the scaling-plus-translation `S = [[2,0,2],[0,2,2]]` squared
gives `T = [[4,0,6],[0,4,6]]`, and the composed half-transform recovers `T`. -/
theorem mid_space_half_transform_witness :
    make_square_affine !![(2 : ℚ), 0, 2; 0, 2, 2] * make_square_affine !![(2 : ℚ), 0, 2; 0, 2, 2]
      = make_square_affine !![(4 : ℚ), 0, 6; 0, 4, 6]
    ∧ composeAffMat (truncAffine (make_square_affine !![(2 : ℚ), 0, 2; 0, 2, 2]))
        (truncAffine (make_square_affine !![(2 : ℚ), 0, 2; 0, 2, 2]))
      = !![(4 : ℚ), 0, 6; 0, 4, 6] := by
  have e1 : make_square_affine !![(2 : ℚ), 0, 2; 0, 2, 2]
      = !![(2 : ℚ), 0, 2; 0, 2, 2; 0, 0, 1] := by
    ext i j
    fin_cases i <;> fin_cases j <;>
      simp [make_square_affine, Fin.last, Matrix.vecHead, Matrix.vecTail]
  have e2 : make_square_affine !![(4 : ℚ), 0, 6; 0, 4, 6]
      = !![(4 : ℚ), 0, 6; 0, 4, 6; 0, 0, 1] := by
    ext i j
    fin_cases i <;> fin_cases j <;>
      simp [make_square_affine, Fin.last, Matrix.vecHead, Matrix.vecTail]
  have hsq : make_square_affine !![(2 : ℚ), 0, 2; 0, 2, 2]
      * make_square_affine !![(2 : ℚ), 0, 2; 0, 2, 2]
      = make_square_affine !![(4 : ℚ), 0, 6; 0, 4, 6] := by
    rw [e1, e2, Matrix.mul_fin_three]
    norm_num
  have hrow : ∀ j, make_square_affine !![(2 : ℚ), 0, 2; 0, 2, 2] (Fin.last 2) j
      = if j = Fin.last 2 then (1 : ℚ) else 0 := by
    intro j
    rw [e1]
    fin_cases j <;> simp [Fin.last, Matrix.vecHead, Matrix.vecTail]
  exact ⟨hsq, mid_space_half_transform _ _ hsq hrow⟩

/-- C4, amended. The mid-space computation performs no detection: whatever the
external `tf.linalg.sqrtm` computes, the step succeeds structurally on every input,
returning `sqrtm(make_square_affine(aff))`, and never produces the
`NoRealSquareRoot` failure. -/
theorem mid_space_no_detection {D : ℕ} (sqrtm : Mat D → Mat D) (aff : AffMat D) :
    midSpaceStep sqrtm aff = Except.ok (sqrtm (make_square_affine aff))
    ∧ ∀ e : MidSpaceFailure, ¬ (midSpaceStep sqrtm aff = Except.error e) := by
  exact ⟨rfl, fun e h => by simp [midSpaceStep] at h⟩

/-- C4 counterexample: the 2-D reflection `[[-1,0,0],[0,1,0]]` has homogeneous
determinant `−1`, while every real matrix square has nonnegative determinant — so no
real square root exists — yet for every possible behavior of the external `sqrtm`
the mid-space step returns `Except.ok`, never reporting `NoRealSquareRoot`. -/
theorem mid_space_no_detection_counterexample :
    (make_square_affine !![(-1 : ℚ), 0, 0; 0, 1, 0]).det = -1
    ∧ (∀ S : Mat 2, 0 ≤ (S * S).det)
    ∧ (∀ sqrtm : Mat 2 → Mat 2,
        midSpaceStep sqrtm !![(-1 : ℚ), 0, 0; 0, 1, 0]
          = Except.ok (sqrtm (make_square_affine !![(-1 : ℚ), 0, 0; 0, 1, 0]))) := by
  have e1 : make_square_affine !![(-1 : ℚ), 0, 0; 0, 1, 0]
      = !![(-1 : ℚ), 0, 0; 0, 1, 0; 0, 0, 1] := by
    ext i j
    fin_cases i <;> fin_cases j <;>
      simp [make_square_affine, Fin.last, Matrix.vecHead, Matrix.vecTail]
  refine ⟨?_, ?_, fun _ => rfl⟩
  · rw [e1, Matrix.det_fin_three]
    norm_num
  · intro S
    rw [Matrix.det_mul]
    exact mul_self_nonneg _

/-- Affine application through homogeneous coordinates: append a one to the point. -/
lemma affApply_eq_mulVec {D : ℕ} (M : Mat D) (x : Vec D) (i : Fin D) :
    affApply M x i = M.mulVec (Fin.snoc x 1) (Fin.castSucc i) := by
  simp only [affApply, Matrix.mulVec, Matrix.dotProduct]
  rw [Fin.sum_univ_castSucc]
  simp [Fin.snoc_castSucc, Fin.snoc_last]

/-- A matrix with affine last row maps homogeneous points to homogeneous points. -/
lemma mulVec_snoc_eq {D : ℕ} (N : Mat D)
    (hN : ∀ j, N (Fin.last D) j = if j = Fin.last D then (1 : ℚ) else 0) (x : Vec D) :
    N.mulVec (Fin.snoc x 1) = Fin.snoc (affApply N x) 1 := by
  funext k
  refine Fin.lastCases ?_ (fun i => ?_) k
  · simp only [Matrix.mulVec, Matrix.dotProduct, Fin.snoc_last]
    rw [Fin.sum_univ_castSucc]
    simp [Fin.snoc_castSucc, Fin.snoc_last, hN, Fin.ne_of_lt (Fin.castSucc_lt_last _)]
  · rw [Fin.snoc_castSucc, affApply_eq_mulVec]

/-- Homogeneous matrix product realizes composition of affine maps (when the
second-applied factor carries the affine last row). -/
lemma affApply_mul {D : ℕ} (M N : Mat D)
    (hN : ∀ j, N (Fin.last D) j = if j = Fin.last D then (1 : ℚ) else 0) (x : Vec D) :
    affApply (M * N) x = affApply M (affApply N x) := by
  funext i
  rw [affApply_eq_mulVec, ← Matrix.mulVec_mulVec, mulVec_snoc_eq N hN,
    affApply_eq_mulVec]

/-- The centering matrix has the affine last row. -/
lemma cenMat_last_row {D : ℕ} (shape : Vec D) (j : Fin (D + 1)) :
    cenMat shape (Fin.last D) j = if j = Fin.last D then (1 : ℚ) else 0 := by
  by_cases hj : j = Fin.last D
  · subst hj; simp [cenMat]
  · simp [cenMat, hj, Ne.symm hj, Fin.val_last]

/-- The un-centering matrix has the affine last row. -/
lemma unCenMat_last_row {D : ℕ} (shape : Vec D) (j : Fin (D + 1)) :
    unCenMat shape (Fin.last D) j = if j = Fin.last D then (1 : ℚ) else 0 := by
  by_cases hj : j = Fin.last D
  · subst hj; simp [unCenMat]
  · simp [unCenMat, hj, Ne.symm hj, Fin.val_last]

/-- The scaling matrix has the affine last row. -/
lemma scaleMat_last_row {D : ℕ} (f : ℚ) (j : Fin (D + 1)) :
    scaleMat D f (Fin.last D) j = if j = Fin.last D then (1 : ℚ) else 0 := by
  by_cases hj : j = Fin.last D
  · subst hj; simp [scaleMat, Fin.val_last]
  · simp [scaleMat, hj, Ne.symm hj, Fin.val_last]

/-- The `cen` matrix subtracts the center `(shape − 1)/2` from each coordinate. -/
lemma affApply_cenMat {D : ℕ} (shape : Vec D) (x : Vec D) :
    affApply (cenMat shape) x = fun i => x i - (1 / 2 : ℚ) * (shape i - 1) := by
  funext i
  simp only [affApply, cenMat, Matrix.of_apply]
  have h1 : ∀ j : Fin D,
      (if Fin.castSucc i = Fin.castSucc j then (1 : ℚ)
        else if h : ((Fin.castSucc i : Fin (D + 1)) : ℕ) < D ∧ Fin.castSucc j = Fin.last D
        then -(1 / 2 : ℚ) * (shape ⟨(Fin.castSucc i : Fin (D + 1)), h.1⟩ - 1) else 0) * x j
      = (if i = j then x j else 0) := by
    intro j
    by_cases hij : i = j
    · simp [hij]
    · have hc : ¬ (Fin.castSucc i = Fin.castSucc j) := by
        simpa [Fin.castSucc_inj] using hij
      simp [hc, hij, Fin.ne_of_lt (Fin.castSucc_lt_last j)]
  rw [Finset.sum_congr rfl (fun j _ => h1 j), Finset.sum_ite_eq]
  have h2 : ¬ (Fin.castSucc i = Fin.last D) := Fin.ne_of_lt (Fin.castSucc_lt_last i)
  simp [h2, i.isLt]
  ring

/-- The `un_cen` matrix adds the center `(shape − 1)/2` to each coordinate. -/
lemma affApply_unCenMat {D : ℕ} (shape : Vec D) (x : Vec D) :
    affApply (unCenMat shape) x = fun i => x i + (1 / 2 : ℚ) * (shape i - 1) := by
  funext i
  simp only [affApply, unCenMat, Matrix.of_apply]
  have h1 : ∀ j : Fin D,
      (if Fin.castSucc i = Fin.castSucc j then (1 : ℚ)
        else if h : ((Fin.castSucc i : Fin (D + 1)) : ℕ) < D ∧ Fin.castSucc j = Fin.last D
        then (1 / 2 : ℚ) * (shape ⟨(Fin.castSucc i : Fin (D + 1)), h.1⟩ - 1) else 0) * x j
      = (if i = j then x j else 0) := by
    intro j
    by_cases hij : i = j
    · simp [hij]
    · have hc : ¬ (Fin.castSucc i = Fin.castSucc j) := by
        simpa [Fin.castSucc_inj] using hij
      simp [hc, hij, Fin.ne_of_lt (Fin.castSucc_lt_last j)]
  rw [Finset.sum_congr rfl (fun j _ => h1 j), Finset.sum_ite_eq]
  have h2 : ¬ (Fin.castSucc i = Fin.last D) := Fin.ne_of_lt (Fin.castSucc_lt_last i)
  simp [h2, i.isLt]

/-- C6. Centering-convention pipeline invariant: the detector endpoint is the single
affine product `un_cen * A * cen` (all intermediate steps composed with
`shift_center = false` stay plain matrix products); semantically the pipeline applies
the centering exactly at the two endpoints, subtracting the center before `A` and
adding it back after; dense-dense compositions — in particular the two
`HyperVxmJoint` compositions that receive the library's default flag — are provably
independent of `shift_center`; and the `shift_center = false` materialization applies
the matrix to raw zero-based indices with no center shift. -/
theorem centering_pipeline_invariant {D : ℕ} (shape c x : Vec D) (v : DField D)
    (A : Mat D)
    (hA : ∀ j, A (Fin.last D) j = if j = Fin.last D then (1 : ℚ) else 0) :
    detectorIndexSpace shape c A = Xform.affine (unCenMat shape * A * cenMat shape)
    ∧ affApply (unCenMat shape * A * cenMat shape) x
      = (fun i => affApply A (fun k => x k - (1 / 2 : ℚ) * (shape k - 1)) i
          + (1 / 2 : ℚ) * (shape i - 1))
    ∧ (∀ (b : Bool) (v' u' : DField D),
        composeXf b c (Xform.dense v') (Xform.dense u') = Xform.dense (denseComp v' u'))
    ∧ (∀ b : Bool, jointTotFullRes b c A v = jointTotFullRes false c A v)
    ∧ affineToDense A c false = fun y => affApply A y - y := by
  refine ⟨?_, ?_, ?_, ?_, rfl⟩
  · simp [detectorIndexSpace, composeXfList, composeXf, mul_assoc]
  · rw [affApply_mul (unCenMat shape * A) (cenMat shape) (cenMat_last_row shape),
      affApply_mul (unCenMat shape) A hA, affApply_cenMat, affApply_unCenMat]
  · intro b v' u'
    cases b <;> rfl
  · intro b
    cases b <;> rfl

/-- C6 witness: in 2-D, with the uniform shape 4 and the pure scaling `diag(2,2,1)`
(which has the affine last row), the detector endpoint equals the single matrix
product `un_cen * scale * cen`. -/
theorem centering_pipeline_invariant_witness :
    (∀ j, scaleMat 2 (2 : ℚ) (Fin.last 2) j = if j = Fin.last 2 then (1 : ℚ) else 0)
    ∧ detectorIndexSpace (fun _ => 4) (fun _ => 0) (scaleMat 2 2)
      = Xform.affine (unCenMat (fun _ => 4) * scaleMat 2 2 * cenMat (fun _ => 4)) :=
  ⟨fun j => scaleMat_last_row 2 j,
    (centering_pipeline_invariant (fun _ => 4) (fun _ => 0) (fun _ => 1)
      (fun _ _ => 0) (scaleMat 2 2) (fun j => scaleMat_last_row 2 j)).1⟩

/-- C7. Unknown `reg_field` selectors abort: any string whose lower-cased value is
none of the four options produces a `ValueError` naming the (lower-cased) option and
no field is substituted; each of the four valid values selects exactly the
corresponding cached field, case-insensitively. -/
theorem reg_field_selector {α : Type} (s : PyStr) (svf pre post pos : α)
    (h : pyLower s ∉ [String.toList "svf", String.toList "preintegrated",
      String.toList "postintegrated", String.toList "warp"]) :
    regFieldSelect s svf pre post pos
      = Except.error (String.toList "Unknown option \"" ++ pyLower s
          ++ String.toList "\" for reg_field.")
    ∧ regFieldSelect (String.toList "svf") svf pre post pos = Except.ok svf
    ∧ regFieldSelect (String.toList "preintegrated") svf pre post pos = Except.ok pre
    ∧ regFieldSelect (String.toList "postintegrated") svf pre post pos = Except.ok post
    ∧ regFieldSelect (String.toList "warp") svf pre post pos = Except.ok pos
    ∧ regFieldSelect (String.toList "WARP") svf pre post pos = Except.ok pos := by
  simp only [List.mem_cons, List.not_mem_nil, or_false, not_or] at h
  obtain ⟨h1, h2, h3, h4⟩ := h
  refine ⟨?_, rfl, rfl, rfl, rfl, rfl⟩
  simp only [regFieldSelect]
  rw [if_neg h1, if_neg h2, if_neg h3, if_neg h4]

/-- C7 witness: the concrete invalid selector "flow" (already lower-case) is rejected
with the error message naming it. -/
theorem reg_field_selector_witness :
    pyLower (String.toList "flow") ∉ [String.toList "svf", String.toList "preintegrated",
      String.toList "postintegrated", String.toList "warp"]
    ∧ regFieldSelect (String.toList "flow") (1 : ℤ) 2 3 4
      = Except.error (String.toList "Unknown option \"" ++ pyLower (String.toList "flow")
          ++ String.toList "\" for reg_field.") :=
  ⟨by decide, (reg_field_selector (String.toList "flow") (1 : ℤ) 2 3 4 (by decide)).1⟩

/-- C5. Rigid projection by parameter truncation (stated for the supported spatial
dimensions 2 and 3, per the source's `assert num_dim in (2, 3)`): slicing the
parameter vector to its first `D(D+1)/2` entries keeps exactly the translation and
rotation blocks, and reconstructing resets every scale parameter to the neutral 1 and
every shear parameter to the neutral 0 — a parameter-truncation projection, with
translation and rotation passed through untouched. -/
theorem rigid_param_truncation (p : AffParams 3) (q : AffParams 2) :
    (paramsFlatten p).take (3 * (3 + 1) / 2)
      = List.ofFn p.translation ++ List.ofFn p.rotation
    ∧ (rigidParamTrunc p).translation = p.translation
    ∧ (rigidParamTrunc p).rotation = p.rotation
    ∧ (rigidParamTrunc p).scale = (fun _ => 1)
    ∧ (rigidParamTrunc p).shear = (fun _ => 0)
    ∧ (paramsFlatten q).take (2 * (2 + 1) / 2)
      = List.ofFn q.translation ++ List.ofFn q.rotation
    ∧ (rigidParamTrunc q).translation = q.translation
    ∧ (rigidParamTrunc q).rotation = q.rotation
    ∧ (rigidParamTrunc q).scale = (fun _ => 1)
    ∧ (rigidParamTrunc q).shear = (fun _ => 0) := by
  refine ⟨rfl, ?_, ?_, ?_, ?_, rfl, ?_, ?_, ?_, ?_⟩ <;>
    · funext i
      fin_cases i <;> rfl

end VoxelMorph
